import Mathlib

/-!
# Verification of the path-confinement and file-tree subsystem

A shallow embedding, in Lean 4, of the server-side core of a self-hosted
drawing-file manager: the Node.js `path` (POSIX flavour) primitives it relies
on, the `validatePath` confinement check, the base64url identifier codec, the
recursive tree builder `listExcalidrawFilesRecursive`, and the file operations
(`readFile`, `saveFile`, `createFile`, `deleteFile`, `deleteFolder`,
`createFolder`, `renameFile`, `getFileTree`) together with the workspace-select
request handler.

Modelling conventions:
* Strings are Lean `String`s; JavaScript string primitives (`startsWith`,
  `substring`, `split`, `endsWith`) coincide with their Lean counterparts on
  the inputs exercised here (where the code takes `substring(n)` the prefix
  whose length is dropped is always an exact known prefix, so counting UTF-16
  units versus characters makes no difference).
* The filesystem is a pure value: a root directory holding a list of named
  entries (files with opaque string content, or subdirectories).  Operations
  thread this value explicitly and return it alongside an `Except` result, so
  "the operation mutated nothing" is expressible as equality of states.
* OS-level resolution of an absolute path (as performed by the kernel for
  `fs.access` etc.) is modelled as POSIX lexical resolution — symlinks are out
  of scope.
* Errors are one constructor per distinct `throw new Error(...)` site /
  runtime fault in the source.
-/

namespace Excaliweb

/-! ## String primitives

JavaScript string operations (`split('/')`, `startsWith`, `endsWith`,
`substring`, `replace`, `join`), implemented by structural recursion over the
character list so that concrete instances reduce inside the kernel. -/

/-- Split a character list at every occurrence of `sep` (JavaScript
`split(sep)` for a one-character separator: `n` separators yield `n + 1`
pieces, empty pieces included). -/
def splitOnCharList (sep : Char) : List Char → List (List Char)
  | [] => [[]]
  | c :: rest =>
    match splitOnCharList sep rest with
    | [] => [[]]
    | g :: gs => if c = sep then [] :: g :: gs else (c :: g) :: gs

/-- JavaScript `s.split('/')`. -/
def splitSlash (s : String) : List String :=
  (splitOnCharList '/' s.data).map String.mk

/-- JavaScript `parts.join(sep)` / Node's internal `/`-joining. -/
def joinWith (sep : String) : List String → String
  | [] => ""
  | [s] => s
  | s :: rest => s ++ sep ++ joinWith sep rest

/-- JavaScript `s.startsWith(pre)`. -/
def jsStartsWith (s pre : String) : Bool :=
  pre.data.isPrefixOf s.data

/-- JavaScript `s.endsWith(suf)`. -/
def jsEndsWith (s suf : String) : Bool :=
  suf.data.isSuffixOf s.data

/-- JavaScript `s.substring(n)` (drop the first `n` characters; the only use
sites drop an exact known prefix, so UTF-16 units versus characters make no
difference). -/
def jsDrop (s : String) (n : Nat) : String :=
  ⟨s.data.drop n⟩

/-- Split a character list around the first occurrence of `pat`:
`some (before, after)` with the occurrence removed, `none` when `pat` does
not occur. -/
def splitFirst (pat : List Char) : List Char → Option (List Char × List Char)
  | [] => if pat.isEmpty then some ([], []) else none
  | c :: rest =>
    if pat.isPrefixOf (c :: rest) then some ([], (c :: rest).drop pat.length)
    else
      match splitFirst pat rest with
      | some (pre, post) => some (c :: pre, post)
      | none => none

/-! ## Node `path.posix` primitives -/

/-- The segment-normalisation loop of Node's `normalizeString`: empty and `.`
segments are dropped; a `..` pops the previous segment when one is available
(and it is not itself a `..`), is kept when `allowAboveRoot` is true, and is
silently discarded otherwise. -/
def normSegs (allowAboveRoot : Bool) (segs : List String) : List String :=
  segs.foldl
    (fun acc seg =>
      if seg = "" || seg = "." then acc
      else if seg = ".." then
        if acc ≠ [] ∧ acc.getLast? ≠ some ".." then acc.dropLast
        else if allowAboveRoot then acc ++ [".."]
        else acc
      else acc ++ [seg])
    []

/-- Node `path.posix.normalize`. -/
def posixNormalize (p : String) : String :=
  if p = "" then "."
  else
    let isAbs := jsStartsWith p "/"
    let trailing := jsEndsWith p "/"
    let core := joinWith "/" (normSegs (!isAbs) (splitSlash p))
    if core = "" then
      if isAbs then "/" else if trailing then "./" else "."
    else
      let core' := if trailing then core ++ "/" else core
      if isAbs then "/" ++ core' else core'

/-- Node `path.posix.join` restricted to two arguments (the only arity the
source uses): non-empty arguments are `/`-joined and the result normalised;
`"."` when both are empty. -/
def posixJoin2 (a b : String) : String :=
  let parts := [a, b].filter (· ≠ "")
  if parts = [] then "." else posixNormalize (joinWith "/" parts)

/-- Node `path.posix.basename` (one-argument form): the last non-empty
segment, ignoring trailing separators; empty when the path consists only of
separators or is empty. -/
def posixBasename (p : String) : String :=
  String.mk (((p.data.reverse.dropWhile (· = '/')).takeWhile (· ≠ '/')).reverse)

/-- Node `path.posix.dirname`.  Mirrors the index-scanning reference
implementation: trailing separators are skipped, then the last segment is cut
at the separator before it; the scan never reaches index 0, which yields the
`"/"`/`"."` fallbacks and the special `"//"` case. -/
def posixDirname (p : String) : String :=
  if p = "" then "."
  else
    let hasRoot := jsStartsWith p "/"
    let r := p.data.reverse.dropWhile (· = '/')
    let r2 := r.dropWhile (· ≠ '/')
    match r2 with
    | [] => if hasRoot then "/" else "."
    | _ :: rest =>
      if rest = [] then (if hasRoot then "/" else ".")
      else if hasRoot ∧ rest.length = 1 then "//"
      else String.mk rest.reverse

/-- Node `path.posix.resolve` with a single argument, given the process
working directory `cwd` (assumed absolute): an absolute argument is resolved
on its own, a relative one against `cwd`; `..` above the root is dropped and
the result never keeps a trailing separator. -/
def posixResolve1 (cwd p : String) : String :=
  let full := if jsStartsWith p "/" then p else if p = "" then cwd else cwd ++ "/" ++ p
  "/" ++ joinWith "/" (normSegs false (splitSlash full))

/-! ## Errors

One constructor per distinct `throw new Error(...)` site (or runtime fault)
in the source.  The spec's taxonomy maps onto these as noted. -/

inductive FsError where
  /-- `'No workspace selected'` (spec: `NoWorkspaceSelected`). -/
  | noWorkspace
  /-- `'Invalid path: Access outside workspace is not allowed'` (spec: `PathEscape`). -/
  | pathEscape
  /-- `'Invalid path: Access outside data directory is not allowed'` (spec: the stricter `PathEscape`). -/
  | dataDirEscape
  /-- The `TypeError` raised by `path.basename(currentWorkspacePath!)` when the
  workspace reference is still `null` (the non-null assertion is erased at runtime). -/
  | typeErrorNullPath
  /-- `'File not found'` (spec: `NotFound`). -/
  | fileNotFound
  /-- `'File already exists'` (spec: `AlreadyExists`). -/
  | fileAlreadyExists
  /-- `'Folder not found'` (spec: `NotFound`). -/
  | folderNotFound
  /-- `'Folder already exists'` (spec: `AlreadyExists`). -/
  | folderAlreadyExists
  /-- `'Path is not a directory'` (spec: `NotADirectory`). -/
  | notADirectory
  /-- `'Cannot delete workspace root directory'` (spec: `RootDeletionForbidden`). -/
  | rootDeletionForbidden
  /-- `'A file with this name already exists'` (spec: `AlreadyExists`). -/
  | renameAlreadyExists
  /-- `'Workspace path does not exist'` (spec: `WorkspaceMissing`). -/
  | workspaceMissing
  /-- An unclassified error surfaced by an `fs` primitive (`ENOENT`, `EISDIR`,
  `ENOTDIR`, ...). -/
  | ioError
  deriving Repr, DecidableEq

/-! ## Filesystem model

A pure value standing for the directory tree rooted at `/`: each directory
holds its named entries in `readdir` order.  File contents are opaque strings
(document payloads and their JSON structure play no role in any property
verified here, so `JSON.parse`/`JSON.stringify` are modelled as the identity
on these payloads).  Directory entry names are unique within a directory, as
`readdir` guarantees.  `FsEntries` is an inlined list so that the mutual
recursions below are structural. -/

mutual

inductive FsEntry where
  /-- A regular file with (opaque) content. -/
  | file (name : String) (content : String)
  /-- A subdirectory with its entries in `readdir` order. -/
  | dir (name : String) (entries : FsEntries)

inductive FsEntries where
  | nil
  | cons (e : FsEntry) (rest : FsEntries)

end

/-- The whole filesystem: the entries of the root directory `/`. -/
abbrev Fs := FsEntries

/-- Build an entry list from a `List` literal. -/
def FsEntries.ofList : List FsEntry → FsEntries
  | [] => .nil
  | e :: rest => .cons e (FsEntries.ofList rest)

def FsEntry.name : FsEntry → String
  | .file n _ => n
  | .dir n _ => n

/-- The first entry with the given name (`readdir` names are unique, so it is
the only one). -/
def FsEntries.findByName (n : String) : FsEntries → Option FsEntry
  | .nil => none
  | .cons e rest => if e.name = n then some e else rest.findByName n

/-- Drop every entry with the given name (the `filter` in `fs.unlink`'s
model). -/
def FsEntries.eraseName (n : String) : FsEntries → FsEntries
  | .nil => .nil
  | .cons e rest =>
    if e.name = n then rest.eraseName n else .cons e (rest.eraseName n)

/-- Replace the entry with the given name. -/
def FsEntries.replaceNamed (n : String) (e' : FsEntry) : FsEntries → FsEntries
  | .nil => .nil
  | .cons e rest => .cons (if e.name = n then e' else e) (rest.replaceNamed n e')

/-- Append an entry at the end (where the kernel adds fresh directory
entries). -/
def FsEntries.push (e' : FsEntry) : FsEntries → FsEntries
  | .nil => .cons e' .nil
  | .cons e rest => .cons e (rest.push e')

/-- Rename the entry with the given name, keeping its content or subtree. -/
def FsEntries.renameNamed (oldN newN : String) : FsEntries → FsEntries
  | .nil => .nil
  | .cons (.file n c) rest =>
    .cons (if n = oldN then .file newN c else .file n c) (rest.renameNamed oldN newN)
  | .cons (.dir n sub) rest =>
    .cons (if n = oldN then .dir newN sub else .dir n sub) (rest.renameNamed oldN newN)

/-- What an absolute path denotes after lexical resolution. -/
inductive FsKind where
  | file (content : String)
  | dir
  deriving Repr, DecidableEq

/-- Kernel-side lexical resolution of an absolute path into segments:
empty and `.` segments collapse, `..` above the root is dropped (POSIX, no
symlinks). -/
def pathSegs (p : String) : List String :=
  normSegs false (splitSlash p)

/-- Walk a segment list down the tree; `[]` denotes the directory the walk
started from.  A file reached with segments left over, or a missing entry,
yields `none`. -/
def statSegs : List String → FsEntries → Option FsKind
  | [], _ => some .dir
  | seg :: rest, es =>
    match es.findByName seg with
    | some (.file _ c) => if rest = [] then some (.file c) else none
    | some (.dir _ sub) => statSegs rest sub
    | none => none

/-- `fs.access`-style existence check for an absolute path. -/
def fsExists (fs : Fs) (p : String) : Bool :=
  (statSegs (pathSegs p) fs).isSome

/-- `stat.isDirectory()` for an absolute path. -/
def fsIsDir (fs : Fs) (p : String) : Bool :=
  statSegs (pathSegs p) fs = some .dir

/-- The entries of the directory an absolute path denotes, when it is one. -/
def dirEntriesSegs : List String → FsEntries → Option FsEntries
  | [], es => some es
  | seg :: rest, es =>
    match es.findByName seg with
    | some (.dir _ sub) => dirEntriesSegs rest sub
    | _ => none

/-- Remove the entry (file, or directory with its whole subtree — this is both
`fs.unlink` and `fs.rm { recursive: true }`) at a segment path. -/
def removeSegs : List String → FsEntries → FsEntries
  | [], es => es
  | [seg], es => es.eraseName seg
  | seg :: rest, es =>
    match es.findByName seg with
    | some (.dir n sub) => es.replaceNamed seg (.dir n (removeSegs rest sub))
    | _ => es

/-- `fs.writeFile`: replaces the content of an existing file in place, appends
a new file to its (existing) parent directory, and fails (`none`) when the
parent is missing / not a directory or the target is a directory. -/
def writeSegs : List String → String → FsEntries → Option FsEntries
  | [], _, _ => none
  | [seg], c, es =>
    match es.findByName seg with
    | some (.dir _ _) => none
    | some (.file _ _) => some (es.replaceNamed seg (.file seg c))
    | none => some (es.push (.file seg c))
  | seg :: rest, c, es =>
    match es.findByName seg with
    | some (.dir n sub) =>
      (writeSegs rest c sub).map (fun sub' => es.replaceNamed seg (.dir n sub'))
    | _ => none

/-- `fs.mkdir { recursive: true }`: creates every missing directory along the
path; succeeds when the path already is a directory; fails when a file stands
in the way. -/
def mkdirSegs : List String → FsEntries → Option FsEntries
  | [], es => some es
  | seg :: rest, es =>
    match es.findByName seg with
    | some (.dir n sub) =>
      (mkdirSegs rest sub).map (fun sub' => es.replaceNamed seg (.dir n sub'))
    | some (.file _ _) => none
    | none => (mkdirSegs rest .nil).map (fun sub' => es.push (.dir seg sub'))

/-- `fs.rename` restricted to the shape the source uses: old and new path
share the parent directory (whose segments are given), so the entry is renamed
in place. -/
def renameAtSegs (oldName newName : String) : List String → FsEntries → FsEntries
  | [], es => es.renameNamed oldName newName
  | seg :: rest, es =>
    match es.findByName seg with
    | some (.dir n sub) =>
      es.replaceNamed seg (.dir n (renameAtSegs oldName newName rest sub))
    | _ => es

/-! ## Environment and `validatePath` -/

/-- Process environment the service reads: `process.env.DATA_DIR` and the
working directory against which `path.resolve` resolves relative paths. -/
structure Env where
  dataDir : Option String
  cwd : String

/-- `validatePath` (fileSystem service): after the optional workspace-name
prefix strip, joins to the workspace root, normalises, and requires the
result to start — as a string — with the normalised workspace root and, when
`DATA_DIR` is set, with its `path.resolve`-form. -/
def validatePath (env : Env) (currentWorkspacePath : Option String)
    (relativePath : String) : Except FsError String :=
  match currentWorkspacePath with
  | none => .error .noWorkspace
  | some w =>
    let workspaceName := posixBasename w
    let cleanPath :=
      if jsStartsWith relativePath (workspaceName ++ "/") then
        jsDrop relativePath (workspaceName.length + 1)
      else if relativePath = workspaceName then ""
      else relativePath
    let absolutePath := posixJoin2 w cleanPath
    let normalizedPath := posixNormalize absolutePath
    let normalizedWorkspace := posixNormalize w
    if jsStartsWith normalizedPath normalizedWorkspace = false then
      .error .pathEscape
    else
      match env.dataDir with
      | some d =>
        if jsStartsWith normalizedPath (posixResolve1 env.cwd d) = false then
          .error .dataDirEscape
        else .ok normalizedPath
      | none => .ok normalizedPath

/-! ## Identifier codec

`encodeFileId` / `decodeFileId` are `Buffer.from(s).toString('base64url')` and
`Buffer.from(id, 'base64url').toString('utf-8')`.  Paths are modelled as their
UTF-8 byte sequences (lists of naturals below 256); the codec itself is a pure
byte↔string transform.  Node's base64url encoder emits the URL-safe alphabet
with no padding; its decoder is lenient and never throws — a character
outside the (combined standard + URL-safe) alphabet is skipped, except that
the padding character `'='` stops decoding entirely (everything from the
first `'='` on is ignored); accumulated sextets are emitted as full bytes and
a dangling sextet is dropped. -/

/-- The base64url alphabet character for a sextet value. -/
def b64Char (v : Nat) : Char :=
  if v < 26 then Char.ofNat (65 + v)
  else if v < 52 then Char.ofNat (97 + (v - 26))
  else if v < 62 then Char.ofNat (48 + (v - 52))
  else if v = 62 then '-'
  else '_'

/-- The sextet value of a character under Node's base64(url) decoding table:
both alphabets are accepted, anything else — including `'='` — is not in the
table (`none`).  Out-of-table characters are skipped by the decoder, except
`'='`, whose stop-decoding behaviour lives in `decodeFileId`. -/
def b64Value (c : Char) : Option Nat :=
  if 'A' ≤ c ∧ c ≤ 'Z' then some (c.toNat - 65)
  else if 'a' ≤ c ∧ c ≤ 'z' then some (26 + (c.toNat - 97))
  else if '0' ≤ c ∧ c ≤ '9' then some (52 + (c.toNat - 48))
  else if c = '-' ∨ c = '+' then some 62
  else if c = '_' ∨ c = '/' then some 63
  else none

/-- Base64 encoding of a byte list, three bytes to four characters, with the
unpadded tail forms for one or two leftover bytes. -/
def encodeBytes : List Nat → List Char
  | [] => []
  | [b1] => [b64Char (b1 / 4), b64Char (b1 % 4 * 16)]
  | [b1, b2] => [b64Char (b1 / 4), b64Char (b1 % 4 * 16 + b2 / 16), b64Char (b2 % 16 * 4)]
  | b1 :: b2 :: b3 :: rest =>
    b64Char (b1 / 4) :: b64Char (b1 % 4 * 16 + b2 / 16) ::
      b64Char (b2 % 16 * 4 + b3 / 64) :: b64Char (b3 % 64) :: encodeBytes rest

/-- `encodeFileId`: the base64url string of the path's bytes. -/
def encodeFileId (pathBytes : List Nat) : String :=
  String.mk (encodeBytes pathBytes)

/-- Reassemble bytes from a stream of sextets: four sextets to three bytes,
with the tail forms for two or three leftover sextets; a single dangling
sextet yields nothing. -/
def sexletsToBytes : List Nat → List Nat
  | a :: b :: c :: d :: rest =>
    (a * 4 + b / 16) :: (b % 16 * 16 + c / 4) :: (c % 4 * 64 + d) :: sexletsToBytes rest
  | [a, b, c] => [a * 4 + b / 16, b % 16 * 16 + c / 4]
  | [a, b] => [a * 4 + b / 16]
  | _ => []

/-- `decodeFileId`: Node's lenient base64url decoding — decoding stops at the
first `'='`, other invalid characters are skipped, nothing is ever rejected;
the function is total and never fails. -/
def decodeFileId (fileId : String) : List Nat :=
  sexletsToBytes ((fileId.data.takeWhile (fun c => c != '=')).filterMap b64Value)

/-! ## Tree builder -/

/-- JavaScript `s.replace(pat, '')` for a plain-string pattern: removes the
first occurrence of `pat`, leaves `s` unchanged when `pat` does not occur. -/
def jsReplaceFirst (s pat : String) : String :=
  match splitFirst pat.data s.data with
  | some (pre, post) => ⟨pre ++ post⟩
  | none => s

/-- A node of the tree snapshot: the server's `FileInfo` / `FolderInfo`
union, discriminated structurally in the source by the presence of a
`children` field. -/
inductive FileTreeItem where
  | file (name : String) (path : String) (parentPath : String)
  | folder (name : String) (path : String) (parentPath : String)
      (children : List FileTreeItem) (isExpanded : Bool)
  deriving Repr

def FileTreeItem.name : FileTreeItem → String
  | .file n _ _ => n
  | .folder n _ _ _ _ => n

def FileTreeItem.path : FileTreeItem → String
  | .file _ p _ => p
  | .folder _ p _ _ _ => p

def FileTreeItem.parentPath : FileTreeItem → String
  | .file _ _ pp => pp
  | .folder _ _ pp _ _ => pp

def FileTreeItem.isFolderB : FileTreeItem → Bool
  | .file _ _ _ => false
  | .folder _ _ _ _ _ => true

/-- The `children.sort` comparator as a boolean "less-or-equal": folders
before files, then by name.  `localeCompare` is modelled as code-point
comparison. -/
def childLe (a b : FileTreeItem) : Bool :=
  if a.isFolderB && !b.isFolderB then true
  else if !a.isFolderB && b.isFolderB then false
  else decide (a.name ≤ b.name)

/-- The per-entry loop body of `listExcalidrawFilesRecursive`, in `readdir`
order, each directory's children sorted folders-first, by name within each
group (`Array.prototype.sort` is modelled as a stable merge sort under the
comparator).  The recursive occurrence of `listExcalidrawFilesRecursive` on a
subdirectory is inlined here — see the wrapper below, to which the inlined
form is definitionally equal (`listChildren_dir`) — so that the recursion is
structural over `FsEntries`. -/
def listChildren (currentPath : String) : FsEntries → List FileTreeItem
  | .nil => []
  | .cons (.file n _) rest =>
    (if jsEndsWith n ".excalidraw" then
      [.file (jsReplaceFirst n ".excalidraw") (currentPath ++ "/" ++ n) currentPath]
    else []) ++ listChildren currentPath rest
  | .cons (.dir n sub) rest =>
    (if jsStartsWith n "." then []
     else
       let subPath := if currentPath ≠ "" then currentPath ++ "/" ++ n else n
       [.folder n subPath currentPath
          ((listChildren subPath sub).mergeSort childLe) (currentPath == "")])
      ++ listChildren currentPath rest

/-- `listExcalidrawFilesRecursive(dirPath, parentPath)` on the model: the
source takes the directory's path and recurses with
`path.join(dirPath, entry.name)`, of which it only ever uses the basename —
for the slash-free names `readdir` yields, that basename is `entry.name`, so
the model passes the directory's name and entries directly.  Files keep only
the `.excalidraw`-suffixed ones; directories recurse unless dot-prefixed (all
are kept, even empty); children are sorted folders before files,
alphabetically within each group; the root call (empty `parentPath`) is marked
expanded. -/
def listExcalidrawFilesRecursive (dirName : String) (entries : FsEntries)
    (parentPath : String) : FileTreeItem :=
  let currentPath := if parentPath ≠ "" then parentPath ++ "/" ++ dirName else dirName
  .folder dirName currentPath parentPath
    ((listChildren currentPath entries).mergeSort childLe) (parentPath == "")

/-! ## File operations

Each operation takes the environment, the workspace reference and the
filesystem value, and returns its result together with the filesystem as left
behind (unchanged whenever the source throws before mutating). -/

/-- The result type of `createFile` / `renameFile` (`FileInfo`). -/
structure FileInfo where
  name : String
  path : String
  parentPath : String
  deriving Repr, DecidableEq

/-- The serialized default empty-document payload `createFile` writes
(`JSON.stringify(initialData, null, 2)`); the constant stands for that exact
text, whose content no verified property inspects. -/
def initialDataJson : String :=
  "excalidraw/2/excaliweb/[]/viewBackgroundColor=#ffffff/{}"

/-- `readFile`: validate, check existence, read and parse.  The stored string
stands for the parsed document (`JSON.parse` of well-formed content is not
further modelled); reading a directory surfaces the `EISDIR` fault. -/
def readFileM (env : Env) (ws : Option String) (fs : Fs) (relativePath : String) :
    Except FsError String × Fs :=
  match validatePath env ws relativePath with
  | .error e => (.error e, fs)
  | .ok abs =>
    if fsExists fs abs = false then (.error .fileNotFound, fs)
    else
      match statSegs (pathSegs abs) fs with
      | some (.file c) => (.ok c, fs)
      | _ => (.error .ioError, fs)

/-- `saveFile`: validate, overwrite.  A missing parent directory (or a
directory target) surfaces the underlying `fs.writeFile` fault. -/
def saveFileM (env : Env) (ws : Option String) (fs : Fs)
    (relativePath : String) (content : String) : Except FsError Unit × Fs :=
  match validatePath env ws relativePath with
  | .error e => (.error e, fs)
  | .ok abs =>
    match writeSegs (pathSegs abs) content fs with
    | some fs' => (.ok (), fs')
    | none => (.error .ioError, fs)

/-- `createFile(name, parentPath)`: extension-normalise the name, validate the
composed path, reject when something is already there, create parent
directories recursively, write the default payload, and return a `FileInfo`
whose `parentPath` falls back to the workspace's own folder name when the
requested parent is empty. -/
def createFileM (env : Env) (ws : Option String) (fs : Fs)
    (name : String) (parentPath : String) : Except FsError FileInfo × Fs :=
  match ws with
  | none => (.error .noWorkspace, fs)
  | some w =>
    let fileName := if jsEndsWith name ".excalidraw" then name else name ++ ".excalidraw"
    let filePath := if parentPath ≠ "" then parentPath ++ "/" ++ fileName else fileName
    match validatePath env (some w) filePath with
    | .error e => (.error e, fs)
    | .ok abs =>
      if fsExists fs abs then (.error .fileAlreadyExists, fs)
      else
        match mkdirSegs (pathSegs (posixDirname abs)) fs with
        | none => (.error .ioError, fs)
        | some fs₁ =>
          match writeSegs (pathSegs abs) initialDataJson fs₁ with
          | none => (.error .ioError, fs₁)
          | some fs₂ =>
            (.ok { name := jsReplaceFirst name ".excalidraw",
                   path := filePath,
                   parentPath := if parentPath ≠ "" then parentPath else posixBasename w },
             fs₂)

/-- `deleteFile`: validate, check existence, unlink. -/
def deleteFileM (env : Env) (ws : Option String) (fs : Fs) (relativePath : String) :
    Except FsError Unit × Fs :=
  match validatePath env ws relativePath with
  | .error e => (.error e, fs)
  | .ok abs =>
    if fsExists fs abs = false then (.error .fileNotFound, fs)
    else (.ok (), removeSegs (pathSegs abs) fs)

/-- `deleteFolder`: refuse the workspace root (by name or empty path) before
anything else, then validate, check existence and directory-ness, and remove
recursively.  With no workspace selected the very first line,
`path.basename(currentWorkspacePath!)`, raises a `TypeError`. -/
def deleteFolderM (env : Env) (ws : Option String) (fs : Fs) (relativePath : String) :
    Except FsError Unit × Fs :=
  match ws with
  | none => (.error .typeErrorNullPath, fs)
  | some w =>
    let workspaceName := posixBasename w
    if relativePath = workspaceName ∨ relativePath = "" then
      (.error .rootDeletionForbidden, fs)
    else
      match validatePath env (some w) relativePath with
      | .error e => (.error e, fs)
      | .ok abs =>
        if fsExists fs abs = false then (.error .folderNotFound, fs)
        else if fsIsDir fs abs = false then (.error .notADirectory, fs)
        else (.ok (), removeSegs (pathSegs abs) fs)

/-- `createFolder(name, parentPath)`: validate the composed path, reject when
something is already there, create the directory chain, and return an empty,
collapsed `FolderInfo` with the same workspace-name fallback for the parent. -/
def createFolderM (env : Env) (ws : Option String) (fs : Fs)
    (name : String) (parentPath : String) : Except FsError FileTreeItem × Fs :=
  match ws with
  | none => (.error .noWorkspace, fs)
  | some w =>
    let folderPath := if parentPath ≠ "" then parentPath ++ "/" ++ name else name
    match validatePath env (some w) folderPath with
    | .error e => (.error e, fs)
    | .ok abs =>
      if fsExists fs abs then (.error .folderAlreadyExists, fs)
      else
        match mkdirSegs (pathSegs abs) fs with
        | none => (.error .ioError, fs)
        | some fs' =>
          (.ok (.folder name folderPath
                  (if parentPath ≠ "" then parentPath else posixBasename w) [] false),
           fs')

/-- `renameFile(oldRelativePath, newName)`: validate the old path, check it
exists, extension-normalise the new name, refuse when the sibling target
already exists, rename in place (same parent directory), and rebuild the
`FileInfo` from the old relative path. -/
def renameFileM (env : Env) (ws : Option String) (fs : Fs)
    (oldRelativePath : String) (newName : String) : Except FsError FileInfo × Fs :=
  match validatePath env ws oldRelativePath with
  | .error e => (.error e, fs)
  | .ok oldAbs =>
    if fsExists fs oldAbs = false then (.error .fileNotFound, fs)
    else
      let fileName := if jsEndsWith newName ".excalidraw" then newName else newName ++ ".excalidraw"
      let dirPath := posixDirname oldAbs
      let newAbs := posixJoin2 dirPath fileName
      if fsExists fs newAbs then (.error .renameAlreadyExists, fs)
      else
        let fs' := renameAtSegs (posixBasename oldAbs) fileName (pathSegs dirPath) fs
        let parentDirPath := posixDirname oldRelativePath
        let newRelativePath := posixJoin2 parentDirPath fileName
        (.ok { name := jsReplaceFirst newName ".excalidraw",
               path := newRelativePath,
               parentPath := parentDirPath },
         fs')

/-- `getFileTree`: `null` when no workspace is selected; otherwise check the
root still exists and list it recursively.  Performs no mutation. -/
def getFileTreeM (fs : Fs) (ws : Option String) : Except FsError (Option FileTreeItem) :=
  match ws with
  | none => .ok none
  | some w =>
    if fsExists fs w = false then .error .workspaceMissing
    else
      match dirEntriesSegs (pathSegs w) fs with
      | some entries => .ok (some (listExcalidrawFilesRecursive (posixBasename w) entries ""))
      | none => .error .ioError

/-! ## Workspace-select handler (`POST /api/workspace/select`) -/

/-- The handler's response, by status and payload. -/
inductive SelectResult where
  /-- 400 `'Invalid path'`. -/
  | badRequest
  /-- 403 `'Invalid workspace path: Must be within data directory'`. -/
  | forbidden
  /-- 400 `'Path is not a directory'`. -/
  | notADirectory
  /-- 400 `'Path does not exist and could not be created'`. -/
  | createFailed
  /-- 400 `'Path does not exist or is not accessible'`. -/
  | notFound
  /-- 500 (either `'Failed to read workspace'` or the route's catch-all). -/
  | serverError
  /-- 200 with the workspace path and the fresh tree snapshot. -/
  | ok (workspacePath : String) (rootFolder : FileTreeItem)
  deriving Repr

/-- The tail of the select handler once the path has been accepted (and, when
needed, created): `setWorkspacePath` runs first, then the tree is read — so
the workspace reference is updated even when the final tree read fails. -/
def selectFinish (p : String) (fs : Fs) : SelectResult × Fs × Option String :=
  match getFileTreeM fs (some p) with
  | .ok (some root) => (.ok p root, fs, some p)
  | .ok none => (.serverError, fs, some p)
  | .error _ => (.serverError, fs, some p)

/-- The select handler: body validation, the `DATA_DIR` string-prefix
containment check on `path.resolve`-normalised paths, existence / directory
checks (creating the directory when missing and a `DATA_DIR` boundary exists),
then `selectFinish`.  Kernel-side resolution of the raw request path is
modelled by `posixResolve1`. -/
def selectWorkspace (env : Env) (fs : Fs) (ws₀ : Option String)
    (body : Option String) : SelectResult × Fs × Option String :=
  match body with
  | none => (.badRequest, fs, ws₀)
  | some p =>
    if p = "" then (.badRequest, fs, ws₀)
    else
      let contained : Bool :=
        match env.dataDir with
        | some d => jsStartsWith (posixResolve1 env.cwd p) (posixResolve1 env.cwd d)
        | none => true
      if contained = false then (.forbidden, fs, ws₀)
      else
        match statSegs (pathSegs (posixResolve1 env.cwd p)) fs with
        | some (.file _) => (.notADirectory, fs, ws₀)
        | some .dir => selectFinish p fs
        | none =>
          match env.dataDir with
          | some _ =>
            match mkdirSegs (pathSegs (posixResolve1 env.cwd p)) fs with
            | some fs' => selectFinish p fs'
            | none => (.createFailed, fs, ws₀)
          | none => (.notFound, fs, ws₀)

/-! ## Claim-side definitions

Independent formulations, written from the specification's wording, against
which the source-derived definitions above are compared. -/

/-- Whether a path string contains a `..` segment (the spec's notion of a
traversal attempt). -/
def hasDotDotSegment (p : String) : Bool :=
  (splitSlash p).contains ".."

/-- True containment of one normalised path inside another: equal, or
extending the root by a separator — the spec's "lies inside" (as opposed to
the source's bare string-prefix test). -/
def isWithin (p root : String) : Bool :=
  p = root || jsStartsWith p (root ++ "/")

/-- From the spec: compute `workspaceName = basename(workspaceRoot)`; if the
relative path starts with `workspaceName + "/"`, strip that prefix; if it
equals `workspaceName`, treat as empty. -/
def stripWorkspaceName (w relativePath : String) : String :=
  let workspaceName := posixBasename w
  if jsStartsWith relativePath (workspaceName ++ "/") then
    jsDrop relativePath (workspaceName.length + 1)
  else if relativePath = workspaceName then ""
  else relativePath

/-- From the spec: resolution of an already-stripped relative path — join
onto the workspace root, normalise, then the two string-prefix containment
checks. -/
def resolveCleaned (env : Env) (w cleanPath : String) : Except FsError String :=
  let normalizedPath := posixNormalize (posixJoin2 w cleanPath)
  if jsStartsWith normalizedPath (posixNormalize w) = false then
    .error .pathEscape
  else
    match env.dataDir with
    | some d =>
      if jsStartsWith normalizedPath (posixResolve1 env.cwd d) = false then
        .error .dataDirEscape
      else .ok normalizedPath
    | none => .ok normalizedPath

/-- The children of a tree node (empty for a file). -/
def FileTreeItem.childrenOf : FileTreeItem → List FileTreeItem
  | .file _ _ _ => []
  | .folder _ _ _ cs _ => cs

/-- Path-composition well-formedness of a tree node: a folder's `path` is its
`parentPath` and name joined by `/` (just the name when `parentPath` is
empty), and a file's `path` is its `parentPath` joined with an
`.excalidraw`-suffixed filename of which the node's `name` is the
first-occurrence-stripped form; recursively, every child's `parentPath` is
this node's `path`. -/
inductive GoodItem : FileTreeItem → Prop where
  | file (nm parent fname : String)
      (hext : jsEndsWith fname ".excalidraw" = true)
      (hnm : nm = jsReplaceFirst fname ".excalidraw") :
      GoodItem (.file nm (parent ++ "/" ++ fname) parent)
  | folder (name p parent : String) (children : List FileTreeItem) (exp : Bool)
      (hp : p = if parent = "" then name else parent ++ "/" ++ name)
      (hparent : ∀ c ∈ children, FileTreeItem.parentPath c = p)
      (hchildren : ∀ c ∈ children, GoodItem c) :
      GoodItem (.folder name p parent children exp)

/-- Every `children` sequence in the tree is ordered under the source's
comparator: folders before files, each group by name. -/
inductive AllSorted : FileTreeItem → Prop where
  | file (n p pp : String) : AllSorted (.file n p pp)
  | folder (name p parent : String) (children : List FileTreeItem) (exp : Bool)
      (hsorted : children.Pairwise (fun a b => childLe a b = true))
      (hchildren : ∀ c ∈ children, AllSorted c) :
      AllSorted (.folder name p parent children exp)

/-! # Theorems -/

/-- The inlined directory branch of `listChildren` is exactly a recursive
`listExcalidrawFilesRecursive` call on the subdirectory. -/
theorem listChildren_dir (currentPath n : String) (sub rest : FsEntries) :
    listChildren currentPath (.cons (.dir n sub) rest) =
      (if jsStartsWith n "." then []
       else [listExcalidrawFilesRecursive n sub currentPath])
        ++ listChildren currentPath rest := rfl

/-- **C6.** `deleteFolder` called with the empty string, or with a relative
path equal to the workspace's own folder name, always fails with
`'Cannot delete workspace root directory'` (`RootDeletionForbidden`) and
removes nothing — the filesystem comes back untouched, whatever its state,
even when the directory exists and would otherwise be deletable. -/
theorem deleteFolder_root_forbidden (env : Env) (fs : Fs) (w relativePath : String)
    (h : relativePath = "" ∨ relativePath = posixBasename w) :
    deleteFolderM env (some w) fs relativePath = (.error .rootDeletionForbidden, fs) := by
  unfold deleteFolderM
  rcases h with h | h <;> simp [h]

/-- Witness for `deleteFolder_root_forbidden`: deleting `"data"` (the
workspace's own folder name) under workspace `/data`, with the directory
present on disk, is refused. -/
theorem deleteFolder_root_forbidden_witness :
    ("data" = "" ∨ "data" = posixBasename "/data") ∧
      deleteFolderM ⟨none, "/"⟩ (some "/data")
          (.ofList [.dir "data" (.ofList [.dir "sub" .nil])]) "data"
        = (.error .rootDeletionForbidden,
           .ofList [.dir "data" (.ofList [.dir "sub" .nil])]) :=
  ⟨Or.inr rfl, deleteFolder_root_forbidden _ _ _ _ (Or.inr rfl)⟩

/-- **C7.** `renameFile` invoked with a new name whose extension-normalised
form collides with an existing sibling entry fails with `'A file with this
name already exists'` (`AlreadyExists`) and performs no filesystem mutation:
the old file and the colliding file are exactly as before. -/
theorem renameFile_collision_untouched (env : Env) (ws : Option String) (fs : Fs)
    (oldRel newName oldAbs : String)
    (hval : validatePath env ws oldRel = .ok oldAbs)
    (hold : fsExists fs oldAbs = true)
    (hnew : fsExists fs (posixJoin2 (posixDirname oldAbs)
      (if jsEndsWith newName ".excalidraw" then newName
       else newName ++ ".excalidraw")) = true) :
    renameFileM env ws fs oldRel newName = (.error .renameAlreadyExists, fs) := by
  unfold renameFileM
  rw [hval]
  simp [hold, hnew]

/-- Witness for `renameFile_collision_untouched`: renaming
`data/a.excalidraw` to `b` while `b.excalidraw` already exists next to it. -/
theorem renameFile_collision_untouched_witness :
    validatePath ⟨none, "/"⟩ (some "/data") "data/a.excalidraw"
        = .ok "/data/a.excalidraw" ∧
    fsExists (.ofList [.dir "data"
        (.ofList [.file "a.excalidraw" "A", .file "b.excalidraw" "B"])])
      "/data/a.excalidraw" = true ∧
    fsExists (.ofList [.dir "data"
        (.ofList [.file "a.excalidraw" "A", .file "b.excalidraw" "B"])])
      (posixJoin2 (posixDirname "/data/a.excalidraw")
        (if jsEndsWith "b" ".excalidraw" then "b" else "b" ++ ".excalidraw")) = true ∧
    renameFileM ⟨none, "/"⟩ (some "/data")
        (.ofList [.dir "data"
          (.ofList [.file "a.excalidraw" "A", .file "b.excalidraw" "B"])])
        "data/a.excalidraw" "b"
      = (.error .renameAlreadyExists,
         .ofList [.dir "data"
           (.ofList [.file "a.excalidraw" "A", .file "b.excalidraw" "B"])]) :=
  ⟨rfl, rfl, rfl, renameFile_collision_untouched _ _ _ _ _ _ rfl rfl rfl⟩

/-- **C10.** With no workspace selected, every file operation fails before
any filesystem access — for every filesystem value the result is the same
error together with the untouched state, so the outcome is independent of the
filesystem — and `getFileTree` returns `none` (`deleteFolder`'s failure is the
`TypeError` raised by `path.basename(null)` on its first line; the others
fail with `'No workspace selected'` from `validatePath`). -/
theorem noWorkspace_all_ops_fail (env : Env) (fs : Fs)
    (p c name parentPath oldRel newName : String) :
    readFileM env none fs p = (.error .noWorkspace, fs) ∧
    saveFileM env none fs p c = (.error .noWorkspace, fs) ∧
    createFileM env none fs name parentPath = (.error .noWorkspace, fs) ∧
    deleteFileM env none fs p = (.error .noWorkspace, fs) ∧
    deleteFolderM env none fs p = (.error .typeErrorNullPath, fs) ∧
    createFolderM env none fs name parentPath = (.error .noWorkspace, fs) ∧
    renameFileM env none fs oldRel newName = (.error .noWorkspace, fs) ∧
    getFileTreeM fs none = .ok none :=
  ⟨rfl, rfl, rfl, rfl, rfl, rfl, rfl, rfl⟩

/-- **C3 counterexample.** `decodeFileId` does not fail on input that is
invalid under the encoding alphabet: `Buffer.from(id, 'base64url')` silently
skips characters outside the alphabet and stops at the first `'='`, so
`"$$$$"` decodes to the empty byte string, an embedded `"!"` is simply
ignored, and `"aG=VsbG8"` decodes to the single byte `104` (`h`) — no
`MalformedIdentifier` failure exists. -/
theorem decodeFileId_never_fails_counterexample :
    decodeFileId "$$$$" = [] ∧
      decodeFileId "aGVsbG8!" = [104, 101, 108, 108, 111] ∧
      decodeFileId "aG=VsbG8" = [104] :=
  ⟨rfl, rfl, rfl⟩

/-- **C3 (amended).** `decodeFileId` is a total function that rejects
nothing: decoding stops at the first `'='` (everything after it is ignored —
first conjunct), and among the characters before it those outside the base64
alphabets are skipped (second conjunct), so arbitrary invalid input silently
yields the decoding of the valid characters before the first `'='` (possibly
the empty byte string); malformed identifiers are only rejected downstream,
by `validatePath`. -/
theorem decodeFileId_lenient (s : String) :
    decodeFileId s = decodeFileId ⟨s.data.takeWhile (fun c => c != '=')⟩ ∧
    decodeFileId s
      = decodeFileId ⟨(s.data.takeWhile (fun c => c != '=')).filter
          (fun c => (b64Value c).isSome)⟩ := by
  have hq : ∀ c ∈ s.data.takeWhile (fun c => c != '='), (c != '=') = true := by
    intro c hc
    have h := List.mem_takeWhile_imp hc
    exact h
  have h1 : (s.data.takeWhile (fun c => c != '=')).takeWhile (fun c => c != '=')
      = s.data.takeWhile (fun c => c != '=') :=
    List.takeWhile_eq_self_iff.mpr hq
  have h2 : ((s.data.takeWhile (fun c => c != '=')).filter
        (fun c => (b64Value c).isSome)).takeWhile (fun c => c != '=')
      = (s.data.takeWhile (fun c => c != '=')).filter
          (fun c => (b64Value c).isSome) := by
    refine List.takeWhile_eq_self_iff.mpr ?_
    intro c hc
    exact hq c (List.mem_of_mem_filter hc)
  have h3 : ∀ L : List Char,
      L.filterMap b64Value
        = (L.filter (fun c => (b64Value c).isSome)).filterMap b64Value := by
    intro L
    induction L with
    | nil => rfl
    | cons c cs ih =>
      cases hv : b64Value c <;>
        simp [List.filterMap_cons, List.filter_cons, hv, ih]
  constructor
  · show sexletsToBytes ((s.data.takeWhile (fun c => c != '=')).filterMap b64Value)
        = sexletsToBytes (((s.data.takeWhile (fun c => c != '=')).takeWhile
            (fun c => c != '=')).filterMap b64Value)
    rw [h1]
  · show sexletsToBytes ((s.data.takeWhile (fun c => c != '=')).filterMap b64Value)
        = sexletsToBytes ((((s.data.takeWhile (fun c => c != '=')).filter
            (fun c => (b64Value c).isSome)).takeWhile
              (fun c => c != '=')).filterMap b64Value)
    rw [h2, ← h3]

/-- `validatePath` decomposes as claim-side prefix-stripping followed by
claim-side join/normalise/check — definitionally. -/
theorem validatePath_eq (env : Env) (w rel : String) :
    validatePath env (some w) rel
      = resolveCleaned env w (stripWorkspaceName w rel) := rfl

/-- A string never starts with itself extended by a separator. -/
theorem jsStartsWith_append_slash_self (s : String) :
    jsStartsWith s (s ++ "/") = false := by
  by_contra h
  rw [Bool.not_eq_false] at h
  unfold jsStartsWith at h
  have hpre := List.isPrefixOf_iff_prefix.mp h
  have hlen := hpre.length_le
  simp [String.data_append] at hlen

/-- Dropping `n.length + 1` characters removes exactly the prefix
`n ++ "/"`. -/
theorem jsDrop_removes_front (n rest : String) :
    jsDrop (n ++ "/" ++ rest) (n.length + 1) = rest := by
  unfold jsDrop
  have h : (n ++ "/" ++ rest).data = (n.data ++ ['/']) ++ rest.data := by
    simp [String.data_append]
  rw [h]
  have hlen : n.length + 1 = (n.data ++ ['/']).length := by
    rw [List.length_append]
    rfl
  rw [hlen, List.drop_left]

/-- **C5.** `validatePath` strips the workspace's own folder-name prefix
before joining: when the relative path starts with
`basename(workspaceRoot) ++ "/"` that prefix is removed (dropping
`length + 1` characters, which by the last conjunct removes exactly that
prefix); when it equals `basename(workspaceRoot)` it is treated as the empty
path (the root itself); otherwise it is passed through unchanged — and in
every case the result is the stripped path joined onto the workspace root,
normalised and containment-checked (`resolveCleaned`). -/
theorem validatePath_prefix_stripping (env : Env) (w rel : String) :
    (jsStartsWith rel (posixBasename w ++ "/") = true →
      validatePath env (some w) rel
        = resolveCleaned env w (jsDrop rel ((posixBasename w).length + 1))) ∧
    (rel = posixBasename w →
      validatePath env (some w) rel = resolveCleaned env w "") ∧
    (jsStartsWith rel (posixBasename w ++ "/") = false → rel ≠ posixBasename w →
      validatePath env (some w) rel = resolveCleaned env w rel) ∧
    (∀ rest : String,
      jsDrop (posixBasename w ++ "/" ++ rest) ((posixBasename w).length + 1) = rest) := by
  refine ⟨fun h => ?_, fun h => ?_, fun h₁ h₂ => ?_, fun rest => jsDrop_removes_front _ _⟩
  · rw [validatePath_eq]
    refine congrArg (resolveCleaned env w) ?_
    unfold stripWorkspaceName
    simp only [h, if_true]
  · subst h
    rw [validatePath_eq]
    refine congrArg (resolveCleaned env w) ?_
    unfold stripWorkspaceName
    simp [jsStartsWith_append_slash_self]
  · rw [validatePath_eq]
    refine congrArg (resolveCleaned env w) ?_
    unfold stripWorkspaceName
    simp only [h₁, Bool.false_eq_true, if_false, h₂]

/-- Witness for `validatePath_prefix_stripping`: under workspace `/data`, the
tree-style path `data/x` resolves as the stripped `x` would. -/
theorem validatePath_prefix_stripping_witness :
    jsStartsWith "data/x" (posixBasename "/data" ++ "/") = true ∧
    validatePath ⟨none, "/"⟩ (some "/data") "data/x"
      = resolveCleaned ⟨none, "/"⟩ "/data"
          (jsDrop "data/x" ((posixBasename "/data").length + 1)) :=
  ⟨rfl, (validatePath_prefix_stripping ⟨none, "/"⟩ "/data" "data/x").1 rfl⟩

/-- **C1 counterexample.** `../data2/x` contains a `..` segment, yet under
workspace root `/data` `validatePath` does not fail: it returns `/data2/x` —
a path outside the workspace — both without and with a configured DataRoot
`/data`, because the normalised result still passes the bare string-prefix
test against `/data`. -/
theorem validatePath_dotdot_escape_counterexample :
    hasDotDotSegment "../data2/x" = true ∧
    validatePath ⟨none, "/"⟩ (some "/data") "../data2/x" = .ok "/data2/x" ∧
    validatePath ⟨some "/data", "/"⟩ (some "/data") "../data2/x" = .ok "/data2/x" ∧
    isWithin "/data2/x" "/data" = false :=
  ⟨rfl, rfl, rfl, rfl⟩

/-- `resolveCleaned` evaluation: workspace-prefix failure. -/
theorem resolveCleaned_escape (env : Env) (w c : String)
    (h : jsStartsWith (posixNormalize (posixJoin2 w c)) (posixNormalize w) = false) :
    resolveCleaned env w c = .error .pathEscape := by
  unfold resolveCleaned
  rw [if_pos h]

/-- `resolveCleaned` evaluation: success with no DataRoot configured. -/
theorem resolveCleaned_ok_none (env : Env) (w c : String)
    (hdd : env.dataDir = none)
    (h : jsStartsWith (posixNormalize (posixJoin2 w c)) (posixNormalize w) = true) :
    resolveCleaned env w c = .ok (posixNormalize (posixJoin2 w c)) := by
  unfold resolveCleaned
  rw [if_neg (by simp [h]), hdd]

/-- `resolveCleaned` evaluation: success under a configured DataRoot. -/
theorem resolveCleaned_ok_some (env : Env) (w c d : String)
    (hdd : env.dataDir = some d)
    (h : jsStartsWith (posixNormalize (posixJoin2 w c)) (posixNormalize w) = true)
    (h2 : jsStartsWith (posixNormalize (posixJoin2 w c)) (posixResolve1 env.cwd d) = true) :
    resolveCleaned env w c = .ok (posixNormalize (posixJoin2 w c)) := by
  unfold resolveCleaned
  rw [if_neg (by simp [h]), hdd]
  exact if_neg (by simp [h2])

/-- `resolveCleaned` evaluation: DataRoot containment failure. -/
theorem resolveCleaned_data_escape (env : Env) (w c d : String)
    (hdd : env.dataDir = some d)
    (h : jsStartsWith (posixNormalize (posixJoin2 w c)) (posixNormalize w) = true)
    (h2 : jsStartsWith (posixNormalize (posixJoin2 w c)) (posixResolve1 env.cwd d) = false) :
    resolveCleaned env w c = .error .dataDirEscape := by
  unfold resolveCleaned
  rw [if_neg (by simp [h]), hdd]
  exact if_pos h2

/-- **C1 (amended).** `validatePath` rejects by string prefix, not by `..`
occurrence: it fails with `PathEscape` whenever the normalised join of the
(stripped) relative path onto the workspace root does not start — as a string
— with the normalised workspace root; and any path it does return is that
normalised join, which starts with the normalised workspace root (and with
the resolved DataRoot when one is configured).  `..` segments whose
normalisation lands back inside the prefix, or on a prefix-sharing sibling
such as `/data2` under `/data`, are accepted. -/
theorem validatePath_prefix_rule (env : Env) (w rel : String) :
    (jsStartsWith (posixNormalize (posixJoin2 w (stripWorkspaceName w rel)))
        (posixNormalize w) = false →
      validatePath env (some w) rel = .error .pathEscape) ∧
    (∀ q, validatePath env (some w) rel = .ok q →
      q = posixNormalize (posixJoin2 w (stripWorkspaceName w rel)) ∧
      jsStartsWith q (posixNormalize w) = true ∧
      ∀ d, env.dataDir = some d → jsStartsWith q (posixResolve1 env.cwd d) = true) := by
  constructor
  · intro h
    rw [validatePath_eq]
    exact resolveCleaned_escape env w _ h
  · intro q hq
    rw [validatePath_eq] at hq
    cases h1 : jsStartsWith (posixNormalize (posixJoin2 w (stripWorkspaceName w rel)))
        (posixNormalize w) with
    | false =>
      rw [resolveCleaned_escape env w _ h1] at hq
      cases hq
    | true =>
      cases hd : env.dataDir with
      | none =>
        rw [resolveCleaned_ok_none env w _ hd h1] at hq
        cases hq
        exact ⟨rfl, h1, fun d' hd' => by cases hd'⟩
      | some d =>
        cases h2 : jsStartsWith (posixNormalize (posixJoin2 w (stripWorkspaceName w rel)))
            (posixResolve1 env.cwd d) with
        | false =>
          rw [resolveCleaned_data_escape env w _ d hd h1 h2] at hq
          cases hq
        | true =>
          rw [resolveCleaned_ok_some env w _ d hd h1 h2] at hq
          cases hq
          refine ⟨rfl, h1, fun d' hd' => ?_⟩
          cases hd'
          exact h2

/-- Witness for `validatePath_prefix_rule`: `..` under workspace `/data`
normalises to `/`, fails the prefix test and is rejected; `data/x` is
accepted and comes back as the normalised join `/data/x`. -/
theorem validatePath_prefix_rule_witness :
    jsStartsWith (posixNormalize (posixJoin2 "/data" (stripWorkspaceName "/data" "..")))
        (posixNormalize "/data") = false ∧
    validatePath ⟨none, "/"⟩ (some "/data") ".." = .error .pathEscape ∧
    validatePath ⟨none, "/"⟩ (some "/data") "data/x" = .ok "/data/x" ∧
    "/data/x" = posixNormalize (posixJoin2 "/data" (stripWorkspaceName "/data" "data/x")) :=
  ⟨rfl, (validatePath_prefix_rule ⟨none, "/"⟩ "/data" "..").1 rfl, rfl,
    ((validatePath_prefix_rule ⟨none, "/"⟩ "/data" "data/x").2 "/data/x" rfl).1⟩

/-- **C2 (amended).** Workspace selection rejects with the 403 containment
error every requested path whose `path.resolve` form does not start — as a
string — with the resolved DataRoot, leaving filesystem and workspace
reference untouched; paths outside the DataRoot that share it as a string
prefix (such as `/data2` under DataRoot `/data`) pass this test and are
accepted (see the counterexample). -/
theorem selectWorkspace_prefix_containment (env : Env) (fs : Fs)
    (ws₀ : Option String) (p d : String)
    (hd : env.dataDir = some d) (hp : p ≠ "")
    (h : jsStartsWith (posixResolve1 env.cwd p) (posixResolve1 env.cwd d) = false) :
    selectWorkspace env fs ws₀ (some p) = (.forbidden, fs, ws₀) := by
  unfold selectWorkspace
  simp [hp, hd, h]

/-- Witness for `selectWorkspace_prefix_containment` — the spec's scenario:
DataRoot `/data`, requested workspace `/data/../etc`; the request resolves to
`/etc` and is rejected even though the raw string `/data/../etc` is
prefix-adjacent. -/
theorem selectWorkspace_prefix_containment_witness :
    (Env.mk (some "/data") "/").dataDir = some "/data" ∧
    "/data/../etc" ≠ "" ∧
    jsStartsWith (posixResolve1 "/" "/data/../etc") (posixResolve1 "/" "/data") = false ∧
    selectWorkspace ⟨some "/data", "/"⟩ (.ofList [.dir "data" .nil]) none
        (some "/data/../etc")
      = (.forbidden, .ofList [.dir "data" .nil], none) :=
  ⟨rfl, by decide, rfl,
    selectWorkspace_prefix_containment ⟨some "/data", "/"⟩ _ none _ "/data"
      rfl (by decide) rfl⟩

unseal List.merge List.mergeSort in
/-- **C2 counterexample.** With DataRoot `/data`, requesting workspace
`/data2` — which after normalisation lies outside `/data` (`isWithin` is
false) — is *not* rejected: `/data2` passes the bare string-prefix test
against `/data`, the directory exists, and selection succeeds, setting the
workspace and returning its tree. -/
theorem selectWorkspace_sibling_counterexample :
    isWithin (posixResolve1 "/" "/data2") "/data" = false ∧
    selectWorkspace ⟨some "/data", "/"⟩
        (.ofList [.dir "data" .nil, .dir "data2" .nil]) none (some "/data2")
      = (.ok "/data2" (.folder "data2" "data2" "" [] true),
         .ofList [.dir "data" .nil, .dir "data2" .nil], some "/data2") :=
  ⟨rfl, rfl⟩

/-- Every sextet value comes back out of Node's decoding table. -/
theorem b64Value_b64Char : ∀ v : Nat, v < 64 → b64Value (b64Char v) = some v := by
  decide

/-- The base64url alphabet avoids `/`, `+` and `=`. -/
theorem b64Char_url_safe :
    ∀ v : Nat, v < 64 → (b64Char v ≠ '/' ∧ b64Char v ≠ '+' ∧ b64Char v ≠ '=') := by
  decide

/-- Decoding inverts encoding at the byte level. -/
theorem decode_encodeBytes :
    ∀ l : List Nat, (∀ b ∈ l, b < 256) →
      sexletsToBytes ((encodeBytes l).filterMap b64Value) = l
  | [], _ => rfl
  | [b1], h => by
    have hb1 : b1 < 256 := h b1 (by simp)
    simp only [encodeBytes, List.filterMap_cons, List.filterMap_nil,
      b64Value_b64Char (b1 / 4) (by omega),
      b64Value_b64Char (b1 % 4 * 16) (by omega)]
    simp only [sexletsToBytes, List.cons.injEq, and_true]
    omega
  | [b1, b2], h => by
    have hb1 : b1 < 256 := h b1 (by simp)
    have hb2 : b2 < 256 := h b2 (by simp)
    simp only [encodeBytes, List.filterMap_cons, List.filterMap_nil,
      b64Value_b64Char (b1 / 4) (by omega),
      b64Value_b64Char (b1 % 4 * 16 + b2 / 16) (by omega),
      b64Value_b64Char (b2 % 16 * 4) (by omega)]
    simp only [sexletsToBytes, List.cons.injEq, and_true]
    constructor <;> omega
  | b1 :: b2 :: b3 :: b4 :: rest, h => by
    have hb1 : b1 < 256 := h b1 (by simp)
    have hb2 : b2 < 256 := h b2 (by simp)
    have hb3 : b3 < 256 := h b3 (by simp)
    have ih := decode_encodeBytes (b4 :: rest) (fun b hb => h b (by simp at hb ⊢; tauto))
    simp only [encodeBytes, List.filterMap_cons,
      b64Value_b64Char (b1 / 4) (by omega),
      b64Value_b64Char (b1 % 4 * 16 + b2 / 16) (by omega),
      b64Value_b64Char (b2 % 16 * 4 + b3 / 64) (by omega),
      b64Value_b64Char (b3 % 64) (by omega)]
    simp only [sexletsToBytes, List.cons.injEq]
    refine ⟨by omega, by omega, by omega, ?_⟩
    simpa [encodeBytes] using ih
  | [b1, b2, b3], h => by
    have hb1 : b1 < 256 := h b1 (by simp)
    have hb2 : b2 < 256 := h b2 (by simp)
    have hb3 : b3 < 256 := h b3 (by simp)
    simp only [encodeBytes, List.filterMap_cons, List.filterMap_nil,
      b64Value_b64Char (b1 / 4) (by omega),
      b64Value_b64Char (b1 % 4 * 16 + b2 / 16) (by omega),
      b64Value_b64Char (b2 % 16 * 4 + b3 / 64) (by omega),
      b64Value_b64Char (b3 % 64) (by omega)]
    simp only [sexletsToBytes, List.cons.injEq, and_true]
    refine ⟨by omega, by omega, by omega⟩

/-- Every character `encodeBytes` emits is some `b64Char v` with `v < 64`. -/
theorem encodeBytes_mem :
    ∀ l : List Nat, (∀ b ∈ l, b < 256) →
      ∀ c ∈ encodeBytes l, ∃ v, v < 64 ∧ c = b64Char v
  | [], _ => by simp [encodeBytes]
  | [b1], h => by
    have hb1 : b1 < 256 := h b1 (by simp)
    simp only [encodeBytes, List.mem_cons, List.not_mem_nil, or_false]
    rintro c (rfl | rfl)
    · exact ⟨b1 / 4, by omega, rfl⟩
    · exact ⟨b1 % 4 * 16, by omega, rfl⟩
  | [b1, b2], h => by
    have hb1 : b1 < 256 := h b1 (by simp)
    have hb2 : b2 < 256 := h b2 (by simp)
    simp only [encodeBytes, List.mem_cons, List.not_mem_nil, or_false]
    rintro c (rfl | rfl | rfl)
    · exact ⟨b1 / 4, by omega, rfl⟩
    · exact ⟨b1 % 4 * 16 + b2 / 16, by omega, rfl⟩
    · exact ⟨b2 % 16 * 4, by omega, rfl⟩
  | b1 :: b2 :: b3 :: b4 :: rest, h => by
    have hb1 : b1 < 256 := h b1 (by simp)
    have hb2 : b2 < 256 := h b2 (by simp)
    have hb3 : b3 < 256 := h b3 (by simp)
    have ih := encodeBytes_mem (b4 :: rest) (fun b hb => h b (by simp at hb ⊢; tauto))
    intro c hc
    simp only [encodeBytes, List.mem_cons] at hc
    rcases hc with rfl | rfl | rfl | rfl | hc
    · exact ⟨b1 / 4, by omega, rfl⟩
    · exact ⟨b1 % 4 * 16 + b2 / 16, by omega, rfl⟩
    · exact ⟨b2 % 16 * 4 + b3 / 64, by omega, rfl⟩
    · exact ⟨b3 % 64, by omega, rfl⟩
    · exact ih c hc
  | [b1, b2, b3], h => by
    have hb1 : b1 < 256 := h b1 (by simp)
    have hb2 : b2 < 256 := h b2 (by simp)
    have hb3 : b3 < 256 := h b3 (by simp)
    simp only [encodeBytes, List.mem_cons, List.not_mem_nil, or_false]
    rintro c (rfl | rfl | rfl | rfl)
    · exact ⟨b1 / 4, by omega, rfl⟩
    · exact ⟨b1 % 4 * 16 + b2 / 16, by omega, rfl⟩
    · exact ⟨b2 % 16 * 4 + b3 / 64, by omega, rfl⟩
    · exact ⟨b3 % 64, by omega, rfl⟩

/-- **C4.** The identifier codec round-trips — `decodeFileId ∘ encodeFileId`
is the identity on every byte sequence (paths are modelled as their UTF-8
bytes) — and `encodeFileId`'s output is URL-path-segment safe: it never
contains `/`, `+` or the padding character `=`.  Both functions are total
pure string transforms: by their types they take neither a filesystem nor a
workspace argument. -/
theorem fileId_roundtrip_urlsafe (l : List Nat) (h : ∀ b ∈ l, b < 256) :
    decodeFileId (encodeFileId l) = l ∧
    ∀ c ∈ (encodeFileId l).data, c ≠ '/' ∧ c ≠ '+' ∧ c ≠ '=' := by
  constructor
  · have hself : (encodeBytes l).takeWhile (fun c => c != '=') = encodeBytes l := by
      refine List.takeWhile_eq_self_iff.mpr ?_
      intro c hc
      obtain ⟨v, hv, rfl⟩ := encodeBytes_mem l h c hc
      simpa using (b64Char_url_safe v hv).2.2
    show sexletsToBytes
        (((encodeBytes l).takeWhile (fun c => c != '=')).filterMap b64Value) = l
    rw [hself]
    exact decode_encodeBytes l h
  · intro c hc
    obtain ⟨v, hv, rfl⟩ := encodeBytes_mem l h c hc
    exact b64Char_url_safe v hv

/-- Witness for `fileId_roundtrip_urlsafe` on the UTF-8 bytes of
`"dir/a.excalidraw"`-style content (including `/` and `.`). -/
theorem fileId_roundtrip_urlsafe_witness :
    (∀ b ∈ [100, 105, 114, 47, 97, 46, 101], b < 256) ∧
    decodeFileId (encodeFileId [100, 105, 114, 47, 97, 46, 101])
      = [100, 105, 114, 47, 97, 46, 101] :=
  ⟨by decide, (fileId_roundtrip_urlsafe [100, 105, 114, 47, 97, 46, 101] (by decide)).1⟩

/-- Every node produced by the tree-builder loop has `parentPath` equal to
the directory path it was produced under, and satisfies the path-composition
invariant `GoodItem`. -/
theorem listChildren_goodItem :
    ∀ (es : FsEntries) (currentPath : String),
      ∀ c ∈ listChildren currentPath es,
        FileTreeItem.parentPath c = currentPath ∧ GoodItem c
  | .nil, cp => by simp [listChildren]
  | .cons (.file n f) rest, cp => by
    intro c hc
    simp only [listChildren] at hc
    rcases List.mem_append.mp hc with hc | hc
    · by_cases hend : jsEndsWith n ".excalidraw" = true
      · rw [if_pos hend] at hc
        simp only [List.mem_singleton] at hc
        subst hc
        exact ⟨rfl, GoodItem.file _ _ _ hend rfl⟩
      · rw [if_neg hend] at hc
        simp at hc
    · exact listChildren_goodItem rest cp c hc
  | .cons (.dir n sub) rest, cp => by
    intro c hc
    simp only [listChildren] at hc
    rcases List.mem_append.mp hc with hc | hc
    · by_cases hdot : jsStartsWith n "." = true
      · rw [if_pos hdot] at hc
        simp at hc
      · rw [if_neg hdot] at hc
        simp only [List.mem_singleton] at hc
        subst hc
        refine ⟨rfl, GoodItem.folder _ _ _ _ _ ?_ ?_ ?_⟩
        · by_cases hcp : cp = "" <;> simp [hcp]
        · intro c' hc'
          exact (listChildren_goodItem sub _ c'
            ((List.mergeSort_perm _ _).mem_iff.mp hc')).1
        · intro c' hc'
          exact (listChildren_goodItem sub _ c'
            ((List.mergeSort_perm _ _).mem_iff.mp hc')).2
    · exact listChildren_goodItem rest cp c hc

/-- **C9 (amended).** Every node of a built tree satisfies the
path-composition invariant: a folder's `path` is `parentPath ++ "/" ++ name`
(just `name` when `parentPath` is empty — in particular the root, whose
`parentPath` is `""`); a file's `path` is `parentPath ++ "/" ++ fname` for
its `.excalidraw`-suffixed filename `fname`; every child's `parentPath`
equals its parent's `path`; and a file's `name` is its filename with the
*first occurrence* of `.excalidraw` removed — which is the filename without
its extension whenever `.excalidraw` occurs only as the suffix, but not in
general (see the counterexample). -/
theorem buildTree_path_composition (dirName : String) (entries : FsEntries)
    (parentPath : String) :
    GoodItem (listExcalidrawFilesRecursive dirName entries parentPath) := by
  unfold listExcalidrawFilesRecursive
  refine GoodItem.folder _ _ _ _ _ ?_ ?_ ?_
  · by_cases h : parentPath = "" <;> simp [h]
  · intro c hc
    exact (listChildren_goodItem entries _ c
      ((List.mergeSort_perm _ _).mem_iff.mp hc)).1
  · intro c hc
    exact (listChildren_goodItem entries _ c
      ((List.mergeSort_perm _ _).mem_iff.mp hc)).2

unseal List.merge List.mergeSort in
/-- **C9 counterexample.** For the file `x.excalidrawy.excalidraw` (the
extension occurs both in the middle and as the suffix), the built node's
`name` is `xy.excalidraw` — JavaScript `replace` removes the *first*
occurrence — whereas the filename without its `.excalidraw` extension is
`x.excalidrawy` (as the second conjunct exhibits); the two differ. -/
theorem buildTree_name_counterexample :
    listExcalidrawFilesRecursive "data"
        (.ofList [.file "x.excalidrawy.excalidraw" ""]) ""
      = .folder "data" "data" ""
          [.file "xy.excalidraw" "data/x.excalidrawy.excalidraw" "data"] true ∧
    "x.excalidrawy" ++ ".excalidraw" = "x.excalidrawy.excalidraw" ∧
    "xy.excalidraw" ≠ "x.excalidrawy" :=
  ⟨rfl, rfl, by decide⟩

/-- The children comparator is transitive. -/
theorem childLe_trans :
    ∀ a b c : FileTreeItem, childLe a b = true → childLe b c = true →
      childLe a c = true := by
  intro a b c hab hbc
  unfold childLe at hab hbc ⊢
  cases ha : a.isFolderB <;> cases hb : b.isFolderB <;> cases hc : c.isFolderB <;>
    simp [ha, hb, hc, decide_eq_true_iff] at hab hbc ⊢ <;>
    exact le_trans hab hbc

/-- The children comparator is total. -/
theorem childLe_total :
    ∀ a b : FileTreeItem, (childLe a b || childLe b a) = true := by
  intro a b
  unfold childLe
  cases ha : a.isFolderB <;> cases hb : b.isFolderB <;>
    simp [decide_eq_true_iff] <;>
    exact le_total a.name.data b.name.data

/-- Every node produced by the tree-builder loop has its whole subtree's
children sequences ordered under the comparator. -/
theorem listChildren_allSorted :
    ∀ (es : FsEntries) (currentPath : String),
      ∀ c ∈ listChildren currentPath es, AllSorted c
  | .nil, cp => by simp [listChildren]
  | .cons (.file n f) rest, cp => by
    intro c hc
    simp only [listChildren] at hc
    rcases List.mem_append.mp hc with hc | hc
    · by_cases hend : jsEndsWith n ".excalidraw" = true
      · rw [if_pos hend] at hc
        simp only [List.mem_singleton] at hc
        subst hc
        exact AllSorted.file _ _ _
      · rw [if_neg hend] at hc
        simp at hc
    · exact listChildren_allSorted rest cp c hc
  | .cons (.dir n sub) rest, cp => by
    intro c hc
    simp only [listChildren] at hc
    rcases List.mem_append.mp hc with hc | hc
    · by_cases hdot : jsStartsWith n "." = true
      · rw [if_pos hdot] at hc
        simp at hc
      · rw [if_neg hdot] at hc
        simp only [List.mem_singleton] at hc
        subst hc
        refine AllSorted.folder _ _ _ _ _
          (List.sorted_mergeSort childLe_trans childLe_total _) ?_
        intro c' hc'
        exact listChildren_allSorted sub _ c'
          ((List.mergeSort_perm _ _).mem_iff.mp hc')
    · exact listChildren_allSorted rest cp c hc

/-- **C8.** Every `children` sequence in a built tree is ordered under the
source's comparator — folders before every file, and within each group
non-decreasing by name — which is exactly the invariant that makes repeated
builds over unchanged filesystem state produce structurally identical trees:
the builder is a pure function of the directory state (determinism and
idempotence hold definitionally in the embedding), and this theorem pins the
deterministic order of each `children` sequence. -/
theorem buildTree_sorted (dirName : String) (entries : FsEntries)
    (parentPath : String) :
    AllSorted (listExcalidrawFilesRecursive dirName entries parentPath) := by
  unfold listExcalidrawFilesRecursive
  refine AllSorted.folder _ _ _ _ _
    (List.sorted_mergeSort childLe_trans childLe_total _) ?_
  intro c hc
  exact listChildren_allSorted entries _ c
    ((List.mergeSort_perm _ _).mem_iff.mp hc)

end Excaliweb
